import Mathlib

/-!
Verification of the crypto-trader repository's portfolio logic.

The frontend components are embedded as pure Lean functions over `ℚ`
(JavaScript numbers that stay finite are modelled exactly as rationals;
a division whose JS result is non-finite, NaN or ±Infinity, is modelled
as `Option.none`).  The rebalancing core (snapshot normalizer, drift
evaluator, rebalance planner, scheduler policy) is described only in the
repository's documentation; those components are modelled from the spec,
as marked on each definition.
-/

namespace CryptoTrader

/-! ## Allocation save gate (frontend AssetAllocation component)

`totalAllocation` embeds `allocations.reduce((sum, val) => sum + val, 0)`
and the Save button is disabled exactly when `totalAllocation !== 100`.
-/

def totalAllocation (allocations : List ℚ) : ℚ :=
  allocations.foldl (fun sum val => sum + val) 0

/-- The Save Allocation button: `disabled={totalAllocation !== 100}`. -/
def saveDisabled (allocations : List ℚ) : Bool :=
  decide (totalAllocation allocations ≠ 100)

/-! ## Portfolio statistics (frontend PortfolioContext)

`calculatePortfolioStats` sums asset values and divides the value-weighted
24h change by the total.  When the total is `0` the JS division produces a
non-finite number (`0/0 = NaN`, `x/0 = ±Infinity`), modelled as `none`; no
error value of any kind is produced by the function.
-/

structure JsAsset where
  value : ℚ
  change24h : ℚ
deriving DecidableEq, Repr

structure PortfolioStats where
  portfolioValue : ℚ
  dailyChange : Option ℚ
  weeklyChange : Option ℚ
  monthlyChange : Option ℚ
deriving DecidableEq, Repr

def calculatePortfolioStats (assets : List JsAsset) : PortfolioStats :=
  let totalValue := assets.foldl (fun sum asset => sum + asset.value) 0
  let dailyChangePercent :=
    if totalValue = 0 then none
    else some ((assets.foldl (fun sum asset => sum + asset.change24h * asset.value) 0) / totalValue)
  { portfolioValue := totalValue
    dailyChange := dailyChangePercent
    weeklyChange := dailyChangePercent.map (fun d => d * (5 / 2))
    monthlyChange := dailyChangePercent.map (fun d => d * (31 / 5)) }

/-! ## Initial allocation state (frontend AssetAllocation component)

The `useState` initializer: `Math.floor(100 / assets.length)` per asset
(0 when there are no assets), with the remainder added to index 0.
-/

def initialAllocations (numAssets : ℕ) : List ℤ :=
  let initialAllocation : ℤ := if 0 < numAssets then 100 / (numAssets : ℤ) else 0
  (List.range numAssets).map (fun index =>
    if index = 0 then initialAllocation + (100 - initialAllocation * numAssets)
    else initialAllocation)

/-! ## Slider change handler (frontend AssetAllocation component)

`handleAllocationChange` embedded statement by statement.  `jsRound`
is JavaScript `Math.round` (half-up, i.e. `⌊x + 1/2⌋`) and `jsSum`
is `reduce((sum, val) => sum + val, 0)`.
-/

def jsRound (q : ℚ) : ℤ := ⌊q + 1 / 2⌋

def jsSum (l : List ℚ) : ℚ := l.foldl (fun sum val => sum + val) 0

/-- The `for (const i of indicesForAdjustment)` loop:
`newAllocations[i] = Math.max(0, newAllocations[i] - adjustmentPerIndex)`. -/
def applyAdjust (l : List ℚ) (idxs : List ℕ) (adj : ℚ) : List ℚ :=
  idxs.foldl (fun acc i => acc.set i (max 0 (acc.getD i 0 - adj))) l

/-- The fix-up loop: add `amt` to the first adjusted index holding a
positive value, then `break`. -/
def fixupFirstPositive (l : List ℚ) (idxs : List ℕ) (amt : ℚ) : List ℚ :=
  match idxs with
  | [] => l
  | i :: rest =>
      if 0 < l.getD i 0 then l.set i (l.getD i 0 + amt)
      else fixupFirstPositive l rest amt

def handleAllocationChange (allocations : List ℚ) (index : ℕ) (value : ℚ) : List ℚ :=
  let oldValue := allocations.getD index 0
  let diff := value - oldValue
  if oldValue = 0 ∧ diff < 0 then allocations
  else
    let n1 := allocations.set index value
    let total := jsSum n1
    let n2 :=
      if total ≠ 100 then
        let otherIndices := (List.range n1.length).filter (fun i => i ≠ index)
        if 0 < otherIndices.length then
          let nonZeroIndices := otherIndices.filter (fun i => 0 < n1.getD i 0)
          if 0 < nonZeroIndices.length then
            let indicesForAdjustment := if 0 < diff then nonZeroIndices else otherIndices
            let adjustmentPerIndex := -diff / (indicesForAdjustment.length : ℚ)
            let n3 := applyAdjust n1 indicesForAdjustment adjustmentPerIndex
            let newTotal := jsSum n3
            if newTotal ≠ 100 then fixupFirstPositive n3 indicesForAdjustment (100 - newTotal)
            else n3
          else n1.set index oldValue
        else n1
      else n1
    n2.map (fun val => (jsRound val : ℚ))

/-! ## Rebalancing core

The snapshot normalizer, drift evaluator, rebalance planner and scheduler
policy are described in the repository's documentation but have no
implementation in the source tree; they are modelled from the spec.
Percentage maps are association lists `List (String × ℚ)`; a missing key
reads as `0`.
-/

/-- Modelled from the spec: percentage lookup with missing entries
defaulting to 0 (spec 4.3: "missing entries default to 0"). -/
def lookupPct (m : List (String × ℚ)) (asset : String) : ℚ :=
  ((m.find? (fun p => p.1 == asset)).map Prod.snd).getD 0

/-- Modelled from the spec: "the union of assets appearing in either
`current_pct` or `targets`" (spec 4.3, 4.4 step 1). -/
def unionAssets (current targets : List (String × ℚ)) : List String :=
  (current.map Prod.fst ++ targets.map Prod.fst).dedup

/-- Modelled from the spec (4.4 step 1):
`delta_usd = (target_pct - current_pct) / 100 * total_value_usd`. -/
def deltaUsd (current targets : List (String × ℚ)) (total_value_usd : ℚ)
    (asset : String) : ℚ :=
  (lookupPct targets asset - lookupPct current asset) / 100 * total_value_usd

/-- The sum of `delta_usd` over the full asset universe. -/
def deltaSum (current targets : List (String × ℚ)) (total_value_usd : ℚ) : ℚ :=
  ((unionAssets current targets).map (deltaUsd current targets total_value_usd)).sum

inductive Side where
  | buy
  | sell
deriving DecidableEq, Repr

structure TradeInstruction where
  asset_symbol : String
  side : Side
  usd_amount : ℚ
deriving DecidableEq, Repr

inductive PlanError where
  | InvalidPortfolioValue
deriving DecidableEq, Repr

/-- Descending order on `usd_amount` (spec 4.4 step 4). -/
def descAmount (x y : TradeInstruction) : Prop :=
  y.usd_amount ≤ x.usd_amount

instance : DecidableRel descAmount :=
  fun x y => inferInstanceAs (Decidable (y.usd_amount ≤ x.usd_amount))

instance : IsTotal TradeInstruction descAmount :=
  ⟨fun x y => le_total y.usd_amount x.usd_amount⟩

instance : IsTrans TradeInstruction descAmount :=
  ⟨fun _ _ _ hab hbc => le_trans hbc hab⟩

def sortByDescAmount (l : List TradeInstruction) : List TradeInstruction :=
  l.insertionSort descAmount

/-- Step 1 of the planner: one `(asset, delta_usd)` pair per asset of the
union. -/
def planDeltas (current targets : List (String × ℚ)) (total_value_usd : ℚ) :
    List (String × ℚ) :=
  (unionAssets current targets).map
    (fun a => (a, deltaUsd current targets total_value_usd a))

/-- Steps 2–3 of the planner, sell side: oversized assets
(`delta_usd < -epsilon`) become sell instructions of `|delta_usd|`. -/
def planSells (current targets : List (String × ℚ)) (total_value_usd epsilon : ℚ) :
    List TradeInstruction :=
  ((planDeltas current targets total_value_usd).filter
      (fun p => decide (p.2 < -epsilon))).map
    (fun p => { asset_symbol := p.1, side := Side.sell, usd_amount := -p.2 })

/-- Steps 2–3 of the planner, buy side: undersized assets
(`delta_usd > epsilon`) become buy instructions of `delta_usd`. -/
def planBuys (current targets : List (String × ℚ)) (total_value_usd epsilon : ℚ) :
    List TradeInstruction :=
  ((planDeltas current targets total_value_usd).filter
      (fun p => decide (epsilon < p.2))).map
    (fun p => { asset_symbol := p.1, side := Side.buy, usd_amount := p.2 })

/-- Modelled from the spec: the Rebalance Planner (spec 4.4), which has no
implementation in the source tree.  Fails with `InvalidPortfolioValue` when
`total_value_usd <= 0`; otherwise partitions the asset union by
`delta_usd` against `epsilon` (assets within epsilon are skipped), emits
one instruction per qualifying asset, and orders them sells-then-buys,
each side sorted by descending `usd_amount`. -/
def plan (current targets : List (String × ℚ)) (total_value_usd epsilon : ℚ) :
    Except PlanError (List TradeInstruction) :=
  if total_value_usd ≤ 0 then .error .InvalidPortfolioValue
  else .ok (sortByDescAmount (planSells current targets total_value_usd epsilon) ++
      sortByDescAmount (planBuys current targets total_value_usd epsilon))

/-- Sum of `usd_amount` over the instructions of one side. -/
def sideSum (s : Side) (ts : List TradeInstruction) : ℚ :=
  ((ts.filter (fun t => decide (t.side = s))).map (fun t => t.usd_amount)).sum

/-- The ordering the spec requires of a plan: no buy precedes a sell, and
within one side amounts are descending. -/
def planOrder (x y : TradeInstruction) : Prop :=
  (x.side = Side.sell ∧ y.side = Side.buy) ∨
  (x.side = y.side ∧ y.usd_amount ≤ x.usd_amount)

structure DriftEntry where
  asset_symbol : String
  current_pct : ℚ
  target_pct : ℚ
  drift_pct : ℚ
deriving DecidableEq, Repr

structure DriftReport where
  entries : List DriftEntry
  max_abs_drift : ℚ
  triggered : Bool
deriving DecidableEq, Repr

/-- Modelled from the spec: the Drift Evaluator (spec 4.3), which has no
implementation in the source tree.  `drift = current - target` over the
asset union, `max_abs_drift` the maximum of the absolute drifts, and
`triggered = max_abs_drift >= threshold_pct`. -/
def evaluate (current targets : List (String × ℚ)) (threshold_pct : ℚ) : DriftReport :=
  let assets := unionAssets current targets
  let entries := assets.map (fun a =>
    { asset_symbol := a
      current_pct := lookupPct current a
      target_pct := lookupPct targets a
      drift_pct := lookupPct current a - lookupPct targets a : DriftEntry })
  let maxAbs := (entries.map (fun e => |e.drift_pct|)).foldl max 0
  { entries := entries, max_abs_drift := maxAbs, triggered := decide (threshold_pct ≤ maxAbs) }

inductive Interval where
  | daily
  | weekly
  | monthly
deriving DecidableEq, Repr

inductive RebalanceMode where
  | fixedInterval
  | thresholdOnly
  | hybrid
deriving DecidableEq, Repr

/-- Modelled from the spec (4.5): the interval mapped to a fixed duration
in milliseconds — daily = 24h, weekly = 7d, monthly = 30d. -/
def intervalDuration : Interval → ℤ
  | .daily => 86400000
  | .weekly => 604800000
  | .monthly => 2592000000

/-- Modelled from the spec: the Scheduler Policy (spec 4.5), which has no
implementation in the source tree.  Timestamps are integer milliseconds;
a null `last_rebalance_at` is always due for `fixed-interval` and
`hybrid`. -/
def should_run (mode : RebalanceMode) (interval : Interval)
    (last_rebalance_at : Option ℤ) (now : ℤ) (report : DriftReport) : Bool :=
  let intervalElapsed :=
    match last_rebalance_at with
    | none => true
    | some t => decide (intervalDuration interval ≤ now - t)
  match mode with
  | .fixedInterval => intervalElapsed
  | .thresholdOnly => report.triggered
  | .hybrid => intervalElapsed || report.triggered

/-! ## Theorems -/

/-- C1: the allocation UI accepts (enables Save for) a list of allocation
targets only when the sum of the percentages differs from 100 by at most
0.01, and refuses to save whenever the absolute difference exceeds 0.01.
The code gates on exact equality with 100, which satisfies both
directions. -/
theorem allocation_sum_gate (allocs : List ℚ) :
    (saveDisabled allocs = false → |totalAllocation allocs - 100| ≤ 1 / 100) ∧
    (1 / 100 < |totalAllocation allocs - 100| → saveDisabled allocs = true) := by
  constructor
  · intro h
    have h100 : totalAllocation allocs = 100 := by
      simpa [saveDisabled] using h
    rw [h100]
    norm_num
  · intro h
    have hne : totalAllocation allocs ≠ 100 := by
      intro he
      rw [he] at h
      norm_num at h
    simp [saveDisabled, hne]

/-- Witness for C1 at the concrete list `[70, 20]` (sum 90). -/
theorem allocation_sum_gate_witness : saveDisabled [70, 20] = true :=
  (allocation_sum_gate [70, 20]).2 (by norm_num [totalAllocation])

/-- C2: on the empty holdings snapshot (total value 0) the code does not
fail with any error: `calculatePortfolioStats` has no error channel at
all, and silently returns the zero total together with non-finite
(`NaN`/`Infinity`, modelled `none`) change statistics produced by the
unguarded division by `totalValue`. -/
theorem calculatePortfolioStats_zero_total_no_error :
    calculatePortfolioStats [] =
      { portfolioValue := 0, dailyChange := none, weeklyChange := none,
        monthlyChange := none } := rfl

/-- C9: on the allocation state `[50, 30, 20]` (nonnegative integers
summing to 100) with the slider at index 0 moved to 90 (within [0, 100]),
`handleAllocationChange` produces `[90, -30, 40]`, which contains a
negative entry — the claimed invariant fails. -/
theorem handleAllocationChange_negative_entry :
    ([50, 30, 20] : List ℚ).sum = 100 ∧
    (∀ x ∈ ([50, 30, 20] : List ℚ), 0 ≤ x) ∧
    (0 : ℚ) ≤ 90 ∧ (90 : ℚ) ≤ 100 ∧
    handleAllocationChange [50, 30, 20] 0 90 = [90, -30, 40] ∧
    ¬ ∀ x ∈ handleAllocationChange [50, 30, 20] 0 90, 0 ≤ x := by
  have heval : handleAllocationChange [50, 30, 20] 0 90 = [90, -30, 40] := by
    norm_num [handleAllocationChange, jsSum, applyAdjust, fixupFirstPositive, jsRound,
      List.range_succ]
  refine ⟨by norm_num, by norm_num, by norm_num, by norm_num, heval, fun hall => ?_⟩
  have h30 := hall (-30) (by rw [heval]; norm_num)
  norm_num at h30

/-- C10: for `n > 0` assets the initial allocation list is
`⌊100/n⌋ + (100 mod n)` at index 0 and `⌊100/n⌋` everywhere else, hence
nonnegative integers summing to exactly 100; for an empty asset list the
state is the empty list. -/
theorem initialAllocations_even_split (n : ℕ) :
    initialAllocations 0 = [] ∧
    (0 < n →
      initialAllocations n =
        (100 / (n : ℤ) + 100 % (n : ℤ)) :: List.replicate (n - 1) (100 / (n : ℤ)) ∧
      (initialAllocations n).sum = 100 ∧
      ∀ x ∈ initialAllocations n, 0 ≤ x) := by
  constructor
  · rfl
  · intro hn
    obtain ⟨m, rfl⟩ : ∃ m, n = m + 1 := ⟨n - 1, (Nat.succ_pred_eq_of_pos hn).symm⟩
    have hnz : ((m : ℤ) + 1) ≠ 0 := by positivity
    have hlist : initialAllocations (m + 1) =
        (100 / ((m : ℤ) + 1) + 100 % ((m : ℤ) + 1)) ::
          List.replicate m (100 / ((m : ℤ) + 1)) := by
      simp only [initialAllocations, Nat.succ_pos, if_pos, List.range_succ_eq_map,
        List.map_cons, List.map_map]
      rw [List.cons_eq_cons]
      constructor
      · have := Int.emod_def (100 : ℤ) ((m : ℤ) + 1)
        push_cast
        ring_nf
        ring_nf at this
        linarith
      · rw [List.eq_replicate_iff]
        refine ⟨by simp, ?_⟩
        intro b hb
        simp only [List.mem_map, List.mem_range, Function.comp] at hb
        obtain ⟨i, _, rfl⟩ := hb
        push_cast
        simp
    refine ⟨by simpa using hlist, ?_, ?_⟩
    · rw [hlist]
      have hdm := Int.ediv_add_emod (100 : ℤ) ((m : ℤ) + 1)
      simp only [List.sum_cons, List.sum_replicate, nsmul_eq_mul]
      ring_nf
      ring_nf at hdm
      linarith
    · rw [hlist]
      intro x hx
      have hdiv : (0 : ℤ) ≤ 100 / ((m : ℤ) + 1) :=
        Int.ediv_nonneg (by norm_num) (by positivity)
      have hmod : (0 : ℤ) ≤ 100 % ((m : ℤ) + 1) := Int.emod_nonneg 100 hnz
      rcases List.mem_cons.mp hx with rfl | hx'
      · linarith
      · rw [List.eq_of_mem_replicate hx']
        exact hdiv

/-- Witness for C10 at 6 assets: `[20, 16, 16, 16, 16, 16]`. -/
theorem initialAllocations_even_split_witness :
    initialAllocations 6 = [20, 16, 16, 16, 16, 16] ∧ (initialAllocations 6).sum = 100 := by
  have h := (initialAllocations_even_split 6).2 (by norm_num)
  refine ⟨?_, h.2.1⟩
  rw [h.1]
  norm_num [List.replicate]

/-! ### Planner helper lemmas -/

lemma plan_ok_elim {current targets : List (String × ℚ)} {total ε : ℚ}
    {ts : List TradeInstruction}
    (hplan : plan current targets total ε = Except.ok ts) :
    0 < total ∧
    ts = sortByDescAmount (planSells current targets total ε) ++
      sortByDescAmount (planBuys current targets total ε) := by
  by_cases h : total ≤ 0
  · simp [plan, h] at hplan
  · refine ⟨lt_of_not_le h, ?_⟩
    simp only [plan, if_neg h, Except.ok.injEq] at hplan
    exact hplan.symm

lemma planSells_side {current targets : List (String × ℚ)} {total ε : ℚ} :
    ∀ t ∈ planSells current targets total ε, t.side = Side.sell := by
  intro t ht
  simp only [planSells, List.mem_map] at ht
  obtain ⟨p, _, rfl⟩ := ht
  rfl

lemma planBuys_side {current targets : List (String × ℚ)} {total ε : ℚ} :
    ∀ t ∈ planBuys current targets total ε, t.side = Side.buy := by
  intro t ht
  simp only [planBuys, List.mem_map] at ht
  obtain ⟨p, _, rfl⟩ := ht
  rfl

lemma sideSum_append (s : Side) (l₁ l₂ : List TradeInstruction) :
    sideSum s (l₁ ++ l₂) = sideSum s l₁ + sideSum s l₂ := by
  simp [sideSum, List.filter_append]

lemma sideSum_perm (s : Side) {l₁ l₂ : List TradeInstruction} (h : l₁.Perm l₂) :
    sideSum s l₁ = sideSum s l₂ :=
  ((h.filter _).map _).sum_eq

lemma sideSum_sort (s : Side) (l : List TradeInstruction) :
    sideSum s (sortByDescAmount l) = sideSum s l :=
  sideSum_perm s (List.perm_insertionSort descAmount l)

lemma sideSum_of_all_eq {s : Side} {l : List TradeInstruction}
    (h : ∀ t ∈ l, t.side = s) :
    sideSum s l = (l.map (fun t => t.usd_amount)).sum := by
  unfold sideSum
  rw [List.filter_eq_self.mpr]
  intro t ht
  simpa using h t ht

lemma sideSum_of_all_ne {s : Side} {l : List TradeInstruction}
    (h : ∀ t ∈ l, t.side ≠ s) :
    sideSum s l = 0 := by
  unfold sideSum
  rw [List.filter_eq_nil_iff.mpr]
  · rfl
  · intro t ht
    simpa using h t ht

lemma filter_snd_sum (l : List (String × ℚ)) (p : ℚ → Bool) (f : ℚ → ℚ) :
    ((l.filter (fun q => p q.2)).map (fun q => f q.2)).sum =
      (((l.map Prod.snd).filter p).map f).sum := by
  induction l with
  | nil => rfl
  | cons x xs ih =>
    by_cases h : p x.2 <;> simp [List.filter_cons, h, ih]

lemma planDeltas_snd (current targets : List (String × ℚ)) (total : ℚ) :
    (planDeltas current targets total).map Prod.snd =
      (unionAssets current targets).map (deltaUsd current targets total) := by
  simp [planDeltas, List.map_map]

/-- Over any list of deltas: the sell total minus the buy total differs
from minus the grand total by at most one epsilon per element (the
skipped, within-epsilon deltas). -/
lemma sell_buy_skip_bound (ε : ℚ) (hε : 0 ≤ ε) (d : List ℚ) :
    |((d.filter (fun x => decide (x < -ε))).map (fun x => -x)).sum -
      (d.filter (fun x => decide (ε < x))).sum + d.sum| ≤ d.length * ε := by
  induction d with
  | nil => simp
  | cons x xs ih =>
    have hlen : ((x :: xs).length : ℚ) * ε = (xs.length : ℚ) * ε + ε := by
      push_cast [List.length_cons]
      ring
    rw [hlen, List.filter_cons, List.filter_cons, List.sum_cons]
    split_ifs with h1 h2 h2
    · rw [decide_eq_true_eq] at h1 h2
      linarith
    · rw [decide_eq_true_eq] at h1
      simp only [List.map_cons, List.sum_cons]
      rw [show -x + ((xs.filter (fun x => decide (x < -ε))).map (fun x => -x)).sum -
          (xs.filter (fun x => decide (ε < x))).sum + (x + xs.sum) =
          ((xs.filter (fun x => decide (x < -ε))).map (fun x => -x)).sum -
          (xs.filter (fun x => decide (ε < x))).sum + xs.sum from by ring]
      linarith [ih]
    · rw [decide_eq_true_eq] at h2
      simp only [List.sum_cons]
      rw [show ((xs.filter (fun x => decide (x < -ε))).map (fun x => -x)).sum -
          (x + (xs.filter (fun x => decide (ε < x))).sum) + (x + xs.sum) =
          ((xs.filter (fun x => decide (x < -ε))).map (fun x => -x)).sum -
          (xs.filter (fun x => decide (ε < x))).sum + xs.sum from by ring]
      linarith [ih]
    · rw [decide_eq_true_eq] at h1 h2
      have hx : |x| ≤ ε := abs_le.mpr ⟨by linarith, by linarith⟩
      rw [show ((xs.filter (fun x => decide (x < -ε))).map (fun x => -x)).sum -
          (xs.filter (fun x => decide (ε < x))).sum + (x + xs.sum) =
          (((xs.filter (fun x => decide (x < -ε))).map (fun x => -x)).sum -
          (xs.filter (fun x => decide (ε < x))).sum + xs.sum) + x from by ring]
      calc |(((xs.filter (fun x => decide (x < -ε))).map (fun x => -x)).sum -
          (xs.filter (fun x => decide (ε < x))).sum + xs.sum) + x|
          ≤ |((xs.filter (fun x => decide (x < -ε))).map (fun x => -x)).sum -
          (xs.filter (fun x => decide (ε < x))).sum + xs.sum| + |x| := abs_add _ _
        _ ≤ (xs.length : ℚ) * ε + ε := add_le_add ih hx

lemma pairwise_of_pairwise_of_mem {α : Type u_1} {R S : α → α → Prop} :
    ∀ {l : List α}, (∀ x ∈ l, ∀ y ∈ l, R x y → S x y) → l.Pairwise R → l.Pairwise S := by
  intro l
  induction l with
  | nil => intro _ _; exact List.Pairwise.nil
  | cons a l ih =>
    intro h hp
    rcases hp with _ | ⟨ha, hl⟩
    refine List.Pairwise.cons ?_ ?_
    · intro y hy
      exact h a (List.mem_cons_self a l) y (List.mem_cons_of_mem _ hy) (ha y hy)
    · exact ih (fun x hx y hy => h x (List.mem_cons_of_mem _ hx) y (List.mem_cons_of_mem _ hy)) hl

lemma le_foldl_max (θ : ℚ) :
    ∀ (l : List ℚ) (a : ℚ), θ ≤ l.foldl max a ↔ θ ≤ a ∨ ∃ x ∈ l, θ ≤ x := by
  intro l
  induction l with
  | nil => intro a; simp
  | cons x xs ih =>
    intro a
    rw [List.foldl_cons, ih, le_max_iff]
    constructor
    · rintro ((ha | hx) | ⟨y, hy, hθ⟩)
      · exact Or.inl ha
      · exact Or.inr ⟨x, List.mem_cons_self x xs, hx⟩
      · exact Or.inr ⟨y, List.mem_cons_of_mem _ hy, hθ⟩
    · rintro (ha | ⟨y, hy, hθ⟩)
      · exact Or.inl (Or.inl ha)
      · rcases List.mem_cons.mp hy with rfl | hy'
        · exact Or.inl (Or.inr hθ)
        · exact Or.inr ⟨y, hy', hθ⟩

lemma filter_snd_sum_sell (l : List (String × ℚ)) (ε : ℚ) :
    ((l.filter (fun p => decide (p.2 < -ε))).map (fun p => -p.2)).sum =
      (((l.map Prod.snd).filter (fun x => decide (x < -ε))).map (fun x => -x)).sum := by
  induction l with
  | nil => rfl
  | cons x xs ih =>
    by_cases h : x.2 < -ε <;> simp [List.filter_cons, h, ih]

lemma filter_snd_sum_buy (l : List (String × ℚ)) (ε : ℚ) :
    ((l.filter (fun p => decide (ε < p.2))).map (fun p => p.2)).sum =
      ((l.map Prod.snd).filter (fun x => decide (ε < x))).sum := by
  induction l with
  | nil => rfl
  | cons x xs ih =>
    by_cases h : ε < x.2 <;> simp [List.filter_cons, h, ih]

lemma planBuys_side_ne_sell {current targets : List (String × ℚ)} {total ε : ℚ} :
    ∀ t ∈ planBuys current targets total ε, t.side ≠ Side.sell := by
  intro t ht h
  rw [planBuys_side t ht] at h
  exact Side.noConfusion h

lemma planSells_side_ne_buy {current targets : List (String × ℚ)} {total ε : ℚ} :
    ∀ t ∈ planSells current targets total ε, t.side ≠ Side.buy := by
  intro t ht h
  rw [planSells_side t ht] at h
  exact Side.noConfusion h

/-- Scenario A of the spec: targets BTC 60 / ETH 30 / USDC 10 on a $10,000
portfolio currently at 68/22/10 plans `[sell BTC $800, buy ETH $800]`. -/
lemma scenarioA_plan :
    plan [("BTC", 68), ("ETH", 22), ("USDC", 10)]
      [("BTC", 60), ("ETH", 30), ("USDC", 10)] 10000 0 =
      Except.ok
        [{ asset_symbol := "BTC", side := Side.sell, usd_amount := 800 },
         { asset_symbol := "ETH", side := Side.buy, usd_amount := 800 }] := by
  have hu : unionAssets [("BTC", (68 : ℚ)), ("ETH", 22), ("USDC", 10)]
      [("BTC", (60 : ℚ)), ("ETH", 30), ("USDC", 10)] = ["BTC", "ETH", "USDC"] := by
    decide
  have hdB : deltaUsd [("BTC", 68), ("ETH", 22), ("USDC", 10)]
      [("BTC", 60), ("ETH", 30), ("USDC", 10)] 10000 "BTC" = -800 := by
    simp [deltaUsd, lookupPct, List.find?]
    norm_num
  have hdE : deltaUsd [("BTC", 68), ("ETH", 22), ("USDC", 10)]
      [("BTC", 60), ("ETH", 30), ("USDC", 10)] 10000 "ETH" = 800 := by
    simp [deltaUsd, lookupPct, List.find?]
    norm_num
  have hdU : deltaUsd [("BTC", 68), ("ETH", 22), ("USDC", 10)]
      [("BTC", 60), ("ETH", 30), ("USDC", 10)] 10000 "USDC" = 0 := by
    simp [deltaUsd, lookupPct, List.find?]
  simp only [plan, planSells, planBuys, planDeltas, hu, List.map_cons, List.map_nil,
    hdB, hdE, hdU]
  norm_num [sortByDescAmount, List.insertionSort, List.orderedInsert, descAmount,
    List.filter_cons]

/-- C3 (counterexample): a produced plan whose sell total exceeds the buy
total by more than the epsilon, even though the full delta set sums to
zero: three assets, two of them skipped at drift 0.9·ε each, the third
sold at 1.8·ε. -/
theorem plan_sell_buy_epsilon_cex :
    plan [("A", 40), ("B", 30), ("C", 30)]
      [("A", 409/10), ("B", 309/10), ("C", 141/5)] 100 1 =
      Except.ok [{ asset_symbol := "C", side := Side.sell, usd_amount := 9/5 }] ∧
    deltaSum [("A", 40), ("B", 30), ("C", 30)]
      [("A", 409/10), ("B", 309/10), ("C", 141/5)] 100 = 0 ∧
    (1 : ℚ) < |sideSum Side.sell
        [{ asset_symbol := "C", side := Side.sell, usd_amount := 9/5 }] -
      sideSum Side.buy
        [{ asset_symbol := "C", side := Side.sell, usd_amount := 9/5 }]| := by
  have hu : unionAssets [("A", (40 : ℚ)), ("B", 30), ("C", 30)]
      [("A", (409 / 10 : ℚ)), ("B", 309 / 10), ("C", 141 / 5)] = ["A", "B", "C"] := by
    decide
  have hdA : deltaUsd [("A", 40), ("B", 30), ("C", 30)]
      [("A", 409 / 10), ("B", 309 / 10), ("C", 141 / 5)] 100 "A" = 9 / 10 := by
    simp [deltaUsd, lookupPct, List.find?]
    norm_num
  have hdB : deltaUsd [("A", 40), ("B", 30), ("C", 30)]
      [("A", 409 / 10), ("B", 309 / 10), ("C", 141 / 5)] 100 "B" = 9 / 10 := by
    simp [deltaUsd, lookupPct, List.find?]
    norm_num
  have hdC : deltaUsd [("A", 40), ("B", 30), ("C", 30)]
      [("A", 409 / 10), ("B", 309 / 10), ("C", 141 / 5)] 100 "C" = -(9 / 5) := by
    simp [deltaUsd, lookupPct, List.find?]
    norm_num
  refine ⟨?_, ?_, ?_⟩
  · simp only [plan, planSells, planBuys, planDeltas, hu, List.map_cons, List.map_nil,
      hdA, hdB, hdC]
    norm_num [sortByDescAmount, List.insertionSort, List.orderedInsert, descAmount,
      List.filter_cons]
  · simp only [deltaSum, hu, List.map_cons, List.map_nil, hdA, hdB, hdC]
    norm_num
  · have h1 : sideSum Side.sell
        [{ asset_symbol := "C", side := Side.sell, usd_amount := 9 / 5 }] = 9 / 5 := by
      simp [sideSum]
    have h2 : sideSum Side.buy
        [{ asset_symbol := "C", side := Side.sell, usd_amount := 9 / 5 }] = 0 := by
      simp [sideSum]
    rw [h1, h2, sub_zero, abs_of_pos (by norm_num : (0 : ℚ) < 9 / 5)]
    norm_num

/-- C3 (amended): whenever the full set of per-asset USD deltas sums to
zero, the sell and buy totals of a produced plan agree within the number
of union assets times epsilon (one epsilon per possibly-skipped asset); a
single epsilon alone does not bound the gap. -/
theorem plan_sell_buy_balance (current targets : List (String × ℚ)) (total ε : ℚ)
    (ts : List TradeInstruction) (hε : 0 ≤ ε)
    (hplan : plan current targets total ε = Except.ok ts)
    (hzero : deltaSum current targets total = 0) :
    |sideSum Side.sell ts - sideSum Side.buy ts| ≤
      ((unionAssets current targets).length : ℚ) * ε := by
  obtain ⟨htot, hts⟩ := plan_ok_elim hplan
  have hsell : sideSum Side.sell ts =
      ((planSells current targets total ε).map (fun t => t.usd_amount)).sum := by
    rw [hts, sideSum_append, sideSum_sort, sideSum_sort,
      sideSum_of_all_eq planSells_side, sideSum_of_all_ne planBuys_side_ne_sell, add_zero]
  have hbuy : sideSum Side.buy ts =
      ((planBuys current targets total ε).map (fun t => t.usd_amount)).sum := by
    rw [hts, sideSum_append, sideSum_sort, sideSum_sort,
      sideSum_of_all_ne planSells_side_ne_buy, sideSum_of_all_eq planBuys_side, zero_add]
  have hsell2 : ((planSells current targets total ε).map (fun t => t.usd_amount)).sum =
      (((planDeltas current targets total).filter
        (fun p => decide (p.2 < -ε))).map (fun p => -p.2)).sum := by
    simp only [planSells, List.map_map]
    rfl
  have hbuy2 : ((planBuys current targets total ε).map (fun t => t.usd_amount)).sum =
      (((planDeltas current targets total).filter
        (fun p => decide (ε < p.2))).map (fun p => p.2)).sum := by
    simp only [planBuys, List.map_map]
    rfl
  have hzero' : ((planDeltas current targets total).map Prod.snd).sum = 0 := by
    rw [planDeltas_snd]
    exact hzero
  have hb := sell_buy_skip_bound ε hε ((planDeltas current targets total).map Prod.snd)
  rw [hzero', add_zero] at hb
  have hlen : ((planDeltas current targets total).map Prod.snd).length =
      (unionAssets current targets).length := by
    simp [planDeltas]
  rw [hsell, hbuy, hsell2, hbuy2, filter_snd_sum_sell, filter_snd_sum_buy]
  rw [hlen] at hb
  exact hb

/-- Witness for C3 at scenario A with epsilon 0. -/
theorem plan_sell_buy_balance_witness :
    |sideSum Side.sell
        [{ asset_symbol := "BTC", side := Side.sell, usd_amount := 800 },
         { asset_symbol := "ETH", side := Side.buy, usd_amount := 800 }] -
      sideSum Side.buy
        [{ asset_symbol := "BTC", side := Side.sell, usd_amount := 800 },
         { asset_symbol := "ETH", side := Side.buy, usd_amount := 800 }]| ≤
      ((unionAssets [("BTC", 68), ("ETH", 22), ("USDC", 10)]
        [("BTC", 60), ("ETH", 30), ("USDC", 10)]).length : ℚ) * 0 :=
  plan_sell_buy_balance _ _ 10000 0 _ le_rfl scenarioA_plan
    (by
      have hu : unionAssets [("BTC", (68 : ℚ)), ("ETH", 22), ("USDC", 10)]
          [("BTC", (60 : ℚ)), ("ETH", 30), ("USDC", 10)] = ["BTC", "ETH", "USDC"] := by
        decide
      have hdB : deltaUsd [("BTC", 68), ("ETH", 22), ("USDC", 10)]
          [("BTC", 60), ("ETH", 30), ("USDC", 10)] 10000 "BTC" = -800 := by
        simp [deltaUsd, lookupPct, List.find?]
        norm_num
      have hdE : deltaUsd [("BTC", 68), ("ETH", 22), ("USDC", 10)]
          [("BTC", 60), ("ETH", 30), ("USDC", 10)] 10000 "ETH" = 800 := by
        simp [deltaUsd, lookupPct, List.find?]
        norm_num
      have hdU : deltaUsd [("BTC", 68), ("ETH", 22), ("USDC", 10)]
          [("BTC", 60), ("ETH", 30), ("USDC", 10)] 10000 "USDC" = 0 := by
        simp [deltaUsd, lookupPct, List.find?]
      simp only [deltaSum, hu, List.map_cons, List.map_nil, hdB, hdE, hdU]
      norm_num)

/-- C4: the drift evaluator triggers exactly when some asset of the union
drifts (in absolute value) at least the threshold — `>=`, so a drift
exactly at threshold fires. -/
theorem evaluate_triggered_iff (current targets : List (String × ℚ)) (θ : ℚ)
    (hθ : 0 < θ) :
    ((evaluate current targets θ).triggered = true ↔
      ∃ e ∈ (evaluate current targets θ).entries, θ ≤ |e.drift_pct|) := by
  simp only [evaluate, decide_eq_true_eq]
  rw [le_foldl_max]
  constructor
  · rintro (h0 | ⟨x, hx, hθx⟩)
    · exact absurd h0 (not_le.mpr hθ)
    · obtain ⟨e, he, rfl⟩ := List.mem_map.mp hx
      exact ⟨e, he, hθx⟩
  · rintro ⟨e, he, hθe⟩
    exact Or.inr ⟨|e.drift_pct|, List.mem_map.mpr ⟨e, he, rfl⟩, hθe⟩

/-- Witness for C4: a drift of exactly 5 against threshold 5 fires. -/
theorem evaluate_triggered_iff_witness :
    (evaluate [("BTC", 65)] [("BTC", 60)] 5).triggered = true := by
  rw [evaluate_triggered_iff _ _ 5 (by norm_num)]
  refine ⟨⟨"BTC", 65, 60, 5⟩, ?_, by norm_num⟩
  have hu : unionAssets [("BTC", (65 : ℚ))] [("BTC", (60 : ℚ))] = ["BTC"] := by
    decide
  have hc : lookupPct [("BTC", (65 : ℚ))] "BTC" = 65 := by
    simp [lookupPct, List.find?]
  have ht : lookupPct [("BTC", (60 : ℚ))] "BTC" = 60 := by
    simp [lookupPct, List.find?]
  simp only [evaluate, hu, List.map_cons, List.map_nil, hc, ht]
  norm_num

/-- C5: in every produced plan all sell instructions precede all buy
instructions, and within each side amounts descend. -/
theorem plan_sells_before_buys (current targets : List (String × ℚ)) (total ε : ℚ)
    (ts : List TradeInstruction)
    (hplan : plan current targets total ε = Except.ok ts) :
    ts.Pairwise planOrder := by
  obtain ⟨-, hts⟩ := plan_ok_elim hplan
  rw [hts, List.pairwise_append]
  refine ⟨?_, ?_, ?_⟩
  · refine pairwise_of_pairwise_of_mem ?_
      (List.sorted_insertionSort descAmount (planSells current targets total ε))
    intro x hx y hy hxy
    have hxs : x.side = Side.sell :=
      planSells_side x (by simpa [sortByDescAmount] using hx)
    have hys : y.side = Side.sell :=
      planSells_side y (by simpa [sortByDescAmount] using hy)
    exact Or.inr ⟨hxs.trans hys.symm, hxy⟩
  · refine pairwise_of_pairwise_of_mem ?_
      (List.sorted_insertionSort descAmount (planBuys current targets total ε))
    intro x hx y hy hxy
    have hxs : x.side = Side.buy :=
      planBuys_side x (by simpa [sortByDescAmount] using hx)
    have hys : y.side = Side.buy :=
      planBuys_side y (by simpa [sortByDescAmount] using hy)
    exact Or.inr ⟨hxs.trans hys.symm, hxy⟩
  · intro a ha b hb
    have has : a.side = Side.sell :=
      planSells_side a (by simpa [sortByDescAmount] using ha)
    have hbs : b.side = Side.buy :=
      planBuys_side b (by simpa [sortByDescAmount] using hb)
    exact Or.inl ⟨has, hbs⟩

/-- Witness for C5 at scenario A. -/
theorem plan_sells_before_buys_witness :
    ([{ asset_symbol := "BTC", side := Side.sell, usd_amount := 800 },
      { asset_symbol := "ETH", side := Side.buy, usd_amount := 800 }] :
      List TradeInstruction).Pairwise planOrder :=
  plan_sells_before_buys _ _ 10000 0 _ scenarioA_plan

/-- C6: every emitted instruction has a strictly positive USD amount, and
an asset whose delta is within epsilon of zero yields no instruction. -/
theorem plan_positive_amounts (current targets : List (String × ℚ)) (total ε : ℚ)
    (ts : List TradeInstruction) (hε : 0 ≤ ε)
    (hplan : plan current targets total ε = Except.ok ts) :
    (∀ tr ∈ ts, 0 < tr.usd_amount) ∧
    (∀ a, |deltaUsd current targets total a| ≤ ε →
      ∀ tr ∈ ts, tr.asset_symbol ≠ a) := by
  obtain ⟨-, hts⟩ := plan_ok_elim hplan
  subst hts
  constructor
  · intro tr htr
    rcases List.mem_append.mp htr with h | h
    · rw [sortByDescAmount, List.mem_insertionSort] at h
      simp only [planSells, List.mem_map, List.mem_filter] at h
      obtain ⟨p, ⟨-, hcond⟩, rfl⟩ := h
      rw [decide_eq_true_eq] at hcond
      simp only
      linarith
    · rw [sortByDescAmount, List.mem_insertionSort] at h
      simp only [planBuys, List.mem_map, List.mem_filter] at h
      obtain ⟨p, ⟨-, hcond⟩, rfl⟩ := h
      rw [decide_eq_true_eq] at hcond
      simp only
      linarith
  · intro a ha tr htr heq
    rcases List.mem_append.mp htr with h | h
    · rw [sortByDescAmount, List.mem_insertionSort] at h
      simp only [planSells, List.mem_map, List.mem_filter] at h
      obtain ⟨p, ⟨hmem, hcond⟩, rfl⟩ := h
      rw [decide_eq_true_eq] at hcond
      simp only [planDeltas, List.mem_map] at hmem
      obtain ⟨b, -, rfl⟩ := hmem
      simp only at heq hcond
      rw [heq] at hcond
      have := neg_le_abs (deltaUsd current targets total a)
      linarith
    · rw [sortByDescAmount, List.mem_insertionSort] at h
      simp only [planBuys, List.mem_map, List.mem_filter] at h
      obtain ⟨p, ⟨hmem, hcond⟩, rfl⟩ := h
      rw [decide_eq_true_eq] at hcond
      simp only [planDeltas, List.mem_map] at hmem
      obtain ⟨b, -, rfl⟩ := hmem
      simp only at heq hcond
      rw [heq] at hcond
      have := le_abs_self (deltaUsd current targets total a)
      linarith

/-- Witness for C6 at scenario A: amounts are positive and the on-target
asset USDC is absent. -/
theorem plan_positive_amounts_witness :
    (∀ tr ∈ ([{ asset_symbol := "BTC", side := Side.sell, usd_amount := 800 },
        { asset_symbol := "ETH", side := Side.buy, usd_amount := 800 }] :
        List TradeInstruction), 0 < tr.usd_amount) ∧
    (∀ tr ∈ ([{ asset_symbol := "BTC", side := Side.sell, usd_amount := 800 },
        { asset_symbol := "ETH", side := Side.buy, usd_amount := 800 }] :
        List TradeInstruction), tr.asset_symbol ≠ "USDC") := by
  have h := plan_positive_amounts _ _ 10000 0 _ le_rfl scenarioA_plan
  exact ⟨h.1, h.2 "USDC" (by simp [deltaUsd, lookupPct, List.find?])⟩

/-- C7: when every asset's current percentage equals its target the
planner (with a positive portfolio value and nonnegative epsilon)
produces the empty trade list. -/
theorem plan_idempotent (current targets : List (String × ℚ)) (total ε : ℚ)
    (hε : 0 ≤ ε) (htot : 0 < total)
    (heq : ∀ a, lookupPct current a = lookupPct targets a) :
    plan current targets total ε = Except.ok [] := by
  have hdelta : ∀ a, deltaUsd current targets total a = 0 := by
    intro a
    rw [deltaUsd, heq a]
    ring
  have hsells : planSells current targets total ε = [] := by
    rw [planSells, List.filter_eq_nil_iff.mpr, List.map_nil]
    intro p hp
    simp only [planDeltas, List.mem_map] at hp
    obtain ⟨b, -, rfl⟩ := hp
    simp only [hdelta b, decide_eq_true_eq]
    intro h
    linarith
  have hbuys : planBuys current targets total ε = [] := by
    rw [planBuys, List.filter_eq_nil_iff.mpr, List.map_nil]
    intro p hp
    simp only [planDeltas, List.mem_map] at hp
    obtain ⟨b, -, rfl⟩ := hp
    simp only [hdelta b, decide_eq_true_eq]
    intro h
    linarith
  rw [plan, if_neg (not_le.mpr htot), hsells, hbuys]
  rfl

/-- Witness for C7: identical current and target maps plan no trades. -/
theorem plan_idempotent_witness :
    plan [("BTC", 60), ("ETH", 40)] [("BTC", 60), ("ETH", 40)] 1000 (1 / 100) =
      Except.ok [] :=
  plan_idempotent _ _ 1000 (1 / 100) (by norm_num) (by norm_num) (fun _ => rfl)

/-- C8: in fixed-interval mode `should_run` is true exactly when
`last_rebalance_at` is null or at least the interval's fixed duration has
elapsed, the durations being daily = 24h, weekly = 7d, monthly = 30d (in
milliseconds). -/
theorem should_run_fixed_interval (i : Interval) (last : Option ℤ) (now : ℤ)
    (r : DriftReport) :
    (should_run RebalanceMode.fixedInterval i last now r = true ↔
      (last = none ∨ ∃ t, last = some t ∧ intervalDuration i ≤ now - t)) ∧
    intervalDuration Interval.daily = 24 * 60 * 60 * 1000 ∧
    intervalDuration Interval.weekly = 7 * 24 * 60 * 60 * 1000 ∧
    intervalDuration Interval.monthly = 30 * 24 * 60 * 60 * 1000 := by
  refine ⟨?_, by norm_num [intervalDuration], by norm_num [intervalDuration],
    by norm_num [intervalDuration]⟩
  cases last with
  | none => simp [should_run]
  | some t => simp [should_run]

end CryptoTrader
